import Mathlib

/-!
Verification development for the watch-folder replication pipeline.

The definitions below are a shallow embedding of the Python sources:
`src/core/file_handler.py`, `src/core/queue_manager.py`,
`src/utils/state_manager.py`, `src/core/file_monitor.py`,
`src/core/download_worker.py` and `src/models/file_job.py`.
Machine floats of the source (`percent`, timestamps) are modelled as
exact rationals; byte strings as `List Nat`; fallible operations return
`Option`.  Loops that Python writes as unbounded `while` are embedded
with structural fuel together with lemmas showing the fuel suffices.
-/

namespace WatchFolder

/-- Python value stored in the job time fields: either a `datetime`
object (which has `.isoformat()`) or a raw `float` from `time.time()`
(which does not).  The payloads are irrelevant to control flow. -/
inductive PyTime where
  | datetime (iso : String)
  | pyfloat (t : Int)
deriving DecidableEq

/-- Filesystem paths reachable by the copy engine.  `os.path.join` and
the f-string `f"{base} ({counter}){ext}"` of
`FileHandler.get_unique_dest_path` produce pairwise distinct path
strings for distinct arguments; the inductive constructors capture
exactly that injectivity.  `dstFile base ext` is `dest_folder/base+ext`
(the unmodified destination name), `dstNumbered base ext n` is
`dest_folder/base ++ " (" ++ n ++ ")" ++ ext`. -/
inductive FPath where
  | srcFile (name : String)
  | dstFile (base ext : String)
  | dstNumbered (base ext : String) (n : Nat)
deriving DecidableEq

/-- A filesystem snapshot: association list from paths to byte contents. -/
abbrev FSys : Type := List (FPath × List Nat)

/-- Content of a path, if the file exists. -/
def fsLookup : FSys → FPath → Option (List Nat)
  | [], _ => none
  | (q, bs) :: rest, p => if q = p then some bs else fsLookup rest p

/-- Model of `os.path.exists`. -/
def fsExists (fs : FSys) (p : FPath) : Bool := (fsLookup fs p).isSome

/-- Model of `os.path.getsize` (0 for a missing file; callers guard with
`fsExists` exactly where the Python guards with `os.path.exists`). -/
def fsSize (fs : FSys) (p : FPath) : Nat := ((fsLookup fs p).getD []).length

/-- Create or overwrite the file at `p` with content `bs`. -/
def fsSet : FSys → FPath → List Nat → FSys
  | [], p, bs => [(p, bs)]
  | (q, cs) :: rest, p, bs =>
    if q = p then (q, bs) :: rest else (q, cs) :: fsSet rest p bs

/-- Writing `data` at offset `pos` of a file whose current content is
`content`: a seek past the end followed by a write zero-fills the gap
(POSIX/NTFS semantics), otherwise the write overwrites in place and may
extend the file. -/
def pyWriteAt (content : List Nat) (pos : Nat) (data : List Nat) : List Nat :=
  let padded := content ++ List.replicate (pos - content.length) 0
  padded.take pos ++ data ++ padded.drop (pos + data.length)

/-- Job record, after `src/models/file_job.py` (`FileJob`).  Fields not
touched by the claims under study (`priority`, `queue_position`,
derived accessors) are omitted. -/
structure FileJob where
  name : String
  source_path : FPath
  dest_path : FPath
  size_bytes : Nat
  status : String := "waiting"
  progress : ℚ := 0
  copied_bytes : Nat := 0
  detected_time : Option PyTime := none
  start_time : Option PyTime := none
  end_time : Option PyTime := none
  retry_count : Nat := 0
  max_retry : Nat := 3
  last_error : Option String := none
  last_checkpoint : Nat := 0
  checkpoints : List Nat := []
deriving DecidableEq

/-- The source computes `percent = (copied_bytes / total_bytes) * 100`
(a Python float, modelled as an exact rational) and then
`current_checkpoint = int(percent // CHECKPOINT_PERCENT) *
CHECKPOINT_PERCENT` with `CHECKPOINT_PERCENT = 10`
(`file_handler.py` lines 115 and 126).  This is that expression,
verbatim over ℚ. -/
def currentCheckpoint (percent : ℚ) : Int := (percent / 10).floor * 10

/-- Integer form of `currentCheckpoint ((copied / total) * 100)`: the
theorem `natCheckpoint_eq_floor` below proves the two agree, so the
executable loop below can carry exact natural numbers instead of
rationals. -/
def natCheckpoint (copied total : Nat) : Nat := 10 * copied / total * 10

/-- Record of one pass through the chunk loop body: the value of the
local `last_checkpoint` before the pass, the freshly computed
`current_checkpoint`, the value of `copied_bytes` after the write (from
which the reported `percent` derives), and whether the checkpoint
callback fired on this pass. -/
structure CpEntry where
  prev : Nat
  cp : Nat
  copied : Nat
  fired : Bool
deriving DecidableEq

/-- State carried by the chunk loop of
`FileHandler.copy_with_progress` (lines 104-133): the destination file
content, the two stream positions, the local `copied_bytes` and
`last_checkpoint`, and the trace of loop passes. -/
structure LoopState where
  dst : List Nat
  dstPos : Nat
  srcPos : Nat
  copied : Nat
  lastCp : Nat
  hist : List CpEntry
deriving DecidableEq

/-- The `while copied_bytes < total_bytes` chunk loop of
`copy_with_progress`.  Each productive pass copies at least one byte,
so fuel `total + 1` makes the embedding exact (the Python loop runs at
most `total - copied + 1` times).  `hasCb` models whether a checkpoint
callback was supplied; as in the source, `last_checkpoint` only
advances when the callback is present and the floored percentage
strictly exceeds it. -/
def chunkLoop (src : List Nat) (chunkSize total : Nat) (hasCb : Bool) :
    Nat → LoopState → LoopState
  | 0, s => s
  | fuel + 1, s =>
    if s.copied < total then
      let chunk := (src.drop s.srcPos).take chunkSize
      if chunk.isEmpty then s
      else
        let copied' := s.copied + chunk.length
        let cp := natCheckpoint copied' total
        let fired := hasCb && decide (s.lastCp < cp)
        chunkLoop src chunkSize total hasCb fuel
          { dst := pyWriteAt s.dst s.dstPos chunk
            dstPos := s.dstPos + chunk.length
            srcPos := s.srcPos + chunk.length
            copied := copied'
            lastCp := if fired then cp else s.lastCp
            hist := s.hist ++ [{ prev := s.lastCp, cp := cp,
                                 copied := copied', fired := fired }] }
    else s

/-- Result of one run of the copy engine. -/
structure CopyResult where
  fs : FSys
  job : FileJob
  ok : Bool
  hist : List CpEntry
deriving DecidableEq

/-- File-level semantics of `FileHandler.copy_with_progress`
(lines 83-145), one exception-free attempt: open the source for
reading; open the destination with mode `'wb'` (which truncates any
existing file to length 0); when `copied_bytes > 0` seek both streams
to that offset; run the chunk loop; then stamp the job
(`copied_bytes := total`, `progress := 100`,
`end_time := time.time()` — a float, not a datetime) and report
success.  `now` is the value of `time.time()`. -/
def copy_with_progress (now : Int) (chunkSize : Nat) (hasCb : Bool)
    (fs : FSys) (job : FileJob) : CopyResult :=
  match fsLookup fs job.source_path with
  | none =>
    { fs := fs
      job := { job with last_error := some "Source file not found" }
      ok := false, hist := [] }
  | some src =>
    let fs1 := fsSet fs job.dest_path []
    let s0 : LoopState :=
      { dst := [], dstPos := job.copied_bytes, srcPos := job.copied_bytes
        copied := job.copied_bytes, lastCp := job.last_checkpoint, hist := [] }
    let fin := chunkLoop src chunkSize job.size_bytes hasCb (job.size_bytes + 1) s0
    let job' := { job with
                  copied_bytes := job.size_bytes, progress := (100 : ℚ),
                  end_time := some (.pyfloat now), last_checkpoint := fin.lastCp }
    { fs := fsSet fs1 job.dest_path fin.dst
      job := job'
      ok := true, hist := fin.hist }

/-- Outcome of one attempt of the retry `for` loop of
`copy_with_progress` (lines 82, 147-176): the attempt either completes,
or raises one of the caught exception classes. -/
inductive AttemptOutcome where
  | success
  | permDenied
  | ioErr (msg : String)
  | notFound
  | other (msg : String)
deriving DecidableEq

/-- Observable outcome of the retry loop: the `time.sleep` delays
performed, the returned boolean, and `job.last_error`. -/
structure RetryResult where
  sleeps : List Nat
  ok : Bool
  err : Option String
deriving DecidableEq

/-- The `for attempt in range(max_retries)` exception-handling layer of
`copy_with_progress` (lines 78-178), abstracted over the outcome of
each attempt.  `max_retries = 5`, `base_delay = 1`; on `PermissionError`
or `IOError` at attempt `< max_retries - 1` the loop sleeps
`base_delay * 2 ** attempt` seconds and retries; at the final attempt it
sets `last_error` and returns `False`.  (The Python `last_error` for
`FileNotFoundError` and `IOError` interpolates the path or message; the
interpolation is immaterial to the claims and kept abbreviated.) -/
def retryLoop (maxRetries baseDelay : Nat) : Nat → List AttemptOutcome → RetryResult
  | _, [] => { sleeps := [], ok := false, err := none }
  | attempt, o :: rest =>
    match o with
    | .success => { sleeps := [], ok := true, err := none }
    | .permDenied =>
      if attempt < maxRetries - 1 then
        let r := retryLoop maxRetries baseDelay (attempt + 1) rest
        { r with sleeps := baseDelay * 2 ^ attempt :: r.sleeps }
      else
        { sleeps := [], ok := false
          err := some ("Permission denied after " ++ Nat.repr maxRetries ++ " attempts") }
    | .ioErr m =>
      if attempt < maxRetries - 1 then
        let r := retryLoop maxRetries baseDelay (attempt + 1) rest
        { r with sleeps := baseDelay * 2 ^ attempt :: r.sleeps }
      else
        { sleeps := [], ok := false, err := some ("IO Error: " ++ m) }
    | .notFound =>
      { sleeps := [], ok := false, err := some "Source file not found" }
    | .other m =>
      { sleeps := [], ok := false, err := some m }

/-- Largest `n` such that `dstNumbered base ext n` is present in the
snapshot (0 when none is).  Used only to size the fuel of the counter
search below; `dstNumbered base ext (maxNumbered fs base ext + 1)` is
always free. -/
def maxNumbered (fs : FSys) (base ext : String) : Nat :=
  fs.foldr
    (fun e acc =>
      match e.1 with
      | .dstNumbered b x n => if b = base ∧ x = ext then max n acc else acc
      | _ => acc)
    0

/-- The `while True` counter search of
`FileHandler.get_unique_dest_path` (lines 52-62): try
`f"{base} ({counter}){ext}"` for `counter = 1, 2, ...` and return the
first candidate that does not exist.  The Python loop always terminates
on a finite directory, so fuel `maxNumbered fs base ext + 2` starting
at counter 1 reproduces it exactly (proved in
`findCounter_from_one_some`). -/
def findCounter (fs : FSys) (base ext : String) : Nat → Nat → Option Nat
  | 0, _ => none
  | fuel + 1, counter =>
    if fsExists fs (.dstNumbered base ext counter) = false then some counter
    else findCounter fs base ext fuel (counter + 1)

/-- `FileHandler.get_unique_dest_path` (lines 30-62): return
`dest_folder/filename` unchanged when no file exists there, otherwise
the first numbered variant `f"{base} ({counter}){ext}"`, counting from
1, that does not exist. -/
def get_unique_dest_path (fs : FSys) (base ext : String) : FPath :=
  if fsExists fs (.dstFile base ext) = false then .dstFile base ext
  else
    match findCounter fs base ext (maxNumbered fs base ext + 2) 1 with
    | some n => .dstNumbered base ext n
    | none => .dstNumbered base ext (maxNumbered fs base ext + 1)

/-- Post-verification step of `FileHandler.safe_copy`
(lines 225-246): a failed copy is passed through; otherwise the
destination must exist with exactly `size_bytes` bytes, else the result
is demoted to failure with the corresponding `last_error`. -/
def post_verify (r : CopyResult) : CopyResult :=
  if r.ok = false then r
  else
    match fsLookup r.fs r.job.dest_path with
    | some bs =>
      if bs.length ≠ r.job.size_bytes then
        { r with
          job := { r.job with last_error := some "Size mismatch after copy" }
          ok := false }
      else r
    | none =>
      { r with
        job := { r.job with last_error := some "Destination file missing after copy" }
        ok := false }

/-- `FileHandler.safe_copy` (lines 180-246): pre-flight existence check
on the source; adopt the live source size into `job.size_bytes`;
replace the destination path by the collision-free one computed by
`get_unique_dest_path` (the worker materializes `dest_path` as
`dest_folder/name`, i.e. the `dstFile` shape, before calling in); run
`copy_with_progress`; then apply the post-verification step. -/
def safe_copy (now : Int) (chunkSize : Nat) (hasCb : Bool)
    (fs : FSys) (job : FileJob) : CopyResult :=
  if (fsExists fs job.source_path) = false then
    { fs := fs
      job := { job with last_error := some "Source file does not exist" }
      ok := false, hist := [] }
  else
    let actual := fsSize fs job.source_path
    let job1 := { job with size_bytes := actual }
    let dest' :=
      match job1.dest_path with
      | .dstFile b e => get_unique_dest_path fs b e
      | p => p
    let job2 := { job1 with dest_path := dest' }
    post_verify (copy_with_progress now chunkSize hasCb fs job2)

/-- Observable side effects of `DownloadWorker._process_job` after
`safe_copy` returns (`download_worker.py` lines 172-223). -/
inductive WorkerAction where
  | historySuccess
  | historyFailed
  | updateState
  | deleteSource (p : FPath)
  | completeJob (success : Bool)
  | failJob (retry : Bool)
deriving DecidableEq

/-- The success/failure tail of `DownloadWorker._process_job`: on
success it logs history, updates the state store, deletes the source
file and completes the job; on failure (`safe_copy` returned `False`,
re-raised as an exception) it logs a failed history row and delegates
to `fail_job`, with `retry` iff `retry_count < max_retry - 1`.  No
branch of the failure path deletes the source file. -/
def processJobActions (ok : Bool) (job : FileJob) : List WorkerAction :=
  if ok then
    [.historySuccess, .updateState, .deleteSource job.source_path, .completeJob true]
  else
    [.historyFailed, .failJob (decide (job.retry_count < job.max_retry - 1))]

/-- State owned by `QueueManager` (`queue_manager.py` lines 21-33): the
FIFO `queue.Queue` of job objects, the `jobs` name-to-record dict, the
four membership lists, and the log of emitted callback events
`(event, job name)`. -/
structure QState where
  jobs : List (String × FileJob)
  fifo : List FileJob
  waiting_jobs : List String
  active_jobs : List String
  completed_jobs : List String
  failed_jobs : List String
  events : List (String × String)
deriving DecidableEq

/-- The empty queue, as built by `QueueManager.__init__`. -/
def emptyQ : QState :=
  { jobs := [], fifo := [], waiting_jobs := [], active_jobs := []
    completed_jobs := [], failed_jobs := [], events := [] }

/-- Association-list update, modelling `self.jobs[job.name] = job` (and
the in-place mutation of the stored object where the dict already holds
it). -/
def assocSet : List (String × FileJob) → String → FileJob → List (String × FileJob)
  | [], n, j => [(n, j)]
  | (m, k) :: rest, n, j =>
    if m = n then (m, j) :: rest else (m, k) :: assocSet rest n j

/-- Dict lookup. -/
def assocGet : List (String × FileJob) → String → Option FileJob
  | [], _ => none
  | (m, k) :: rest, n => if m = n then some k else assocGet rest n

/-- `QueueManager.add_job` (lines 35-68).  The duplicate check of the
source is commented out (lines 47-49), so a name already tracked is
unconditionally re-added: status is forced to `waiting`, the job is
stored in the dict, appended to the waiting list and put on the FIFO,
and an `added` event is emitted. -/
def add_job (s : QState) (job : FileJob) : QState :=
  let job1 := { job with status := "waiting" }
  { s with
    jobs := assocSet s.jobs job1.name job1
    waiting_jobs := s.waiting_jobs ++ [job1.name]
    fifo := s.fifo ++ [job1]
    events := s.events ++ [("added", job1.name)] }

/-- `QueueManager.get_next_job` (lines 70-96): pop the FIFO head; when
its name is still in the dict, mark it `downloading`, append to the
active list, drop it from the waiting list (if present) and emit
`started`; otherwise discard it. -/
def get_next_job (s : QState) : Option FileJob × QState :=
  match s.fifo with
  | [] => (none, s)
  | job :: rest =>
    if (assocGet s.jobs job.name).isSome then
      let job1 := { job with status := "downloading" }
      (some job1,
       { s with
         fifo := rest
         jobs := assocSet s.jobs job1.name job1
         active_jobs := s.active_jobs ++ [job1.name]
         waiting_jobs := s.waiting_jobs.erase job1.name
         events := s.events ++ [("started", job1.name)] })
    else (none, { s with fifo := rest })

/-- `QueueManager.complete_job` (lines 98-131): when the name is
tracked, append it to the completed (on success) or failed list,
remove it from the active list, and emit `completed`/`failed`. -/
def complete_job (s : QState) (job : FileJob) (success : Bool) : QState :=
  if (assocGet s.jobs job.name).isSome = false then s
  else
    let job1 := { job with status := if success then "completed" else "failed" }
    { s with
      jobs := assocSet s.jobs job1.name job1
      completed_jobs := if success then s.completed_jobs ++ [job1.name] else s.completed_jobs
      failed_jobs := if success then s.failed_jobs else s.failed_jobs ++ [job1.name]
      active_jobs := s.active_jobs.erase job1.name
      events := s.events ++ [(if success then "completed" else "failed", job1.name)] }

/-- `QueueManager.fail_job` (lines 133-163): increment `retry_count`
and set `last_error`; when `retry` is requested and the incremented
count is still below `max_retry`, re-enqueue at the FIFO tail with
status `waiting`, otherwise append to the failed list; remove from the
active list; in both branches the emitted callback event is
`"failed"`. -/
def fail_job (s : QState) (job : FileJob) (error : String) (retry : Bool) : QState :=
  let job1 := { job with retry_count := job.retry_count + 1, last_error := some error }
  if retry ∧ job1.retry_count < job1.max_retry then
    let job2 := { job1 with status := "waiting" }
    { s with
      jobs := assocSet s.jobs job2.name job2
      waiting_jobs := s.waiting_jobs ++ [job2.name]
      fifo := s.fifo ++ [job2]
      active_jobs := s.active_jobs.erase job2.name
      events := s.events ++ [("failed", job2.name)] }
  else
    let job2 := { job1 with status := "failed" }
    { s with
      jobs := assocSet s.jobs job2.name job2
      failed_jobs := s.failed_jobs ++ [job2.name]
      active_jobs := s.active_jobs.erase job2.name
      events := s.events ++ [("failed", job2.name)] }

/-- `QueueManager.clear_completed` (lines 217-229): drop every
completed/failed name from the dict and clear both terminal lists. -/
def clear_completed (s : QState) : QState :=
  { s with
    jobs := s.jobs.filter
      (fun e => (s.completed_jobs ++ s.failed_jobs).contains e.1 = false)
    completed_jobs := []
    failed_jobs := [] }

/-- Number of the four queue containers (waiting list, active set,
completed set, failed set) in which a name occurs. -/
def containerCount (s : QState) (n : String) : Nat :=
  (if s.waiting_jobs.contains n then 1 else 0) +
  (if s.active_jobs.contains n then 1 else 0) +
  (if s.completed_jobs.contains n then 1 else 0) +
  (if s.failed_jobs.contains n then 1 else 0)

/-- Filesystem-level effects issued by `StateManager.save`
(`state_manager.py` lines 100-108). -/
inductive FsEffect where
  | makedirs (dir : String)
  | openWrite (path : String)
  | jsonDump (path : String)
  | renameOver (tmp target : String)
deriving DecidableEq

/-- Effect trace of `StateManager.save` (lines 100-108): create the
parent directory if missing, then `open(self.state_path, 'w')` —
directly on the target path — and `json.dump` into that handle.  There
is no temporary sibling file and no rename step anywhere in
`state_manager.py`. -/
def saveEffects (stateDir statePath : String) : List FsEffect :=
  [.makedirs stateDir, .openWrite statePath, .jsonDump statePath]

/-- Predicate picking out rename effects. -/
def FsEffect.isRename : FsEffect → Bool
  | .renameOver _ _ => true
  | _ => false

/-- Model of `datetime.isoformat()` dispatch: attribute access succeeds
on a `datetime` and raises `AttributeError` on a raw `float` (the value
`time.time()` returns). -/
def pyIsoformat : PyTime → Except String String
  | .datetime s => .ok s
  | .pyfloat _ => .error "AttributeError: float object has no attribute isoformat"

/-- The `t.isoformat() if t else None` idiom of `FileJob.to_dict`. -/
def optIso : Option PyTime → Except String (Option String)
  | none => .ok none
  | some t => (pyIsoformat t).map some

/-- Serialized job record (the JSON-ready dict), after
`FileJob.to_dict` (`file_job.py` lines 118-138).  Only the fields the
claims inspect are kept; the remaining keys are plain copies. -/
structure JobDict where
  name : String
  status : String
  progress : ℚ
  copied_bytes : Nat
  detected_time : Option String
  start_time : Option String
  end_time : Option String
  last_checkpoint : Nat
deriving DecidableEq

/-- `FileJob.to_dict`: builds the dict, calling `.isoformat()` on each
non-null timestamp in field order; the first such call on a
non-datetime value raises, aborting the whole serialization. -/
def to_dict (j : FileJob) : Except String JobDict :=
  match optIso j.detected_time with
  | .error m => .error m
  | .ok dt =>
    match optIso j.start_time with
    | .error m => .error m
    | .ok st =>
      match optIso j.end_time with
      | .error m => .error m
      | .ok et =>
        .ok { name := j.name, status := j.status, progress := j.progress
              copied_bytes := j.copied_bytes, detected_time := dt
              start_time := st, end_time := et
              last_checkpoint := j.last_checkpoint }

/-- In-memory document held by `StateManager` (`state_manager.py`
lines 35-41). -/
structure StoreState where
  jobs : List (String × JobDict)
  active_downloads : List String
  queued : List String
deriving DecidableEq

/-- Dict update for the store's `jobs` map. -/
def storeSet : List (String × JobDict) → String → JobDict → List (String × JobDict)
  | [], n, d => [(n, d)]
  | (m, e) :: rest, n, d =>
    if m = n then (m, d) :: rest else (m, e) :: storeSet rest n d

/-- `StateManager.update_job` (lines 114-149): `job.to_dict()` is
evaluated first; if it raises, the `except` branch logs and returns
`False` with the state untouched.  Otherwise the jobs map and the
`active_downloads`/`queue` name lists are updated according to the
job's status and the call returns `True`. -/
def update_job (st : StoreState) (j : FileJob) : StoreState × Bool :=
  match to_dict j with
  | .error _ => (st, false)
  | .ok d =>
    let active' :=
      if j.status = "downloading" then
        if st.active_downloads.contains j.name then st.active_downloads
        else st.active_downloads ++ [j.name]
      else st.active_downloads.erase j.name
    let queued' :=
      if j.status = "waiting" then
        if st.queued.contains j.name then st.queued
        else st.queued ++ [j.name]
      else st.queued.erase j.name
    ({ jobs := storeSet st.jobs j.name d
       active_downloads := active'
       queued := queued' }, true)

/-- One directory entry as seen by `FileMonitor._scan_folder`.  The
extension field carries the result of
`os.path.splitext(item)[1].lower()` used by `is_video_file`
(`validators.py` lines 144-156). -/
structure DirEntry where
  ename : String
  isDir : Bool
  ext : String
  size : Nat
deriving DecidableEq

/-- State owned by `FileMonitor` (`file_monitor.py` lines 38-47):
the folder list, the per-folder seen sets, and the stabilization table
keyed by absolute path, modelled as `(folder, filename)` pairs carrying
the recorded size. -/
structure MonState where
  source_folders : List String
  seen_files : List (String × List String)
  stable_files : List ((String × String) × Nat)
deriving DecidableEq

/-- Per-folder seen-set lookup. -/
def seenGet : List (String × List String) → String → Option (List String)
  | [], _ => none
  | (f, xs) :: rest, g => if f = g then some xs else seenGet rest g

/-- Per-folder seen-set update. -/
def seenSet : List (String × List String) → String → List String → List (String × List String)
  | [], g, ys => [(g, ys)]
  | (f, xs) :: rest, g, ys =>
    if f = g then (f, ys) :: rest else (f, xs) :: seenSet rest g ys

/-- Stabilization-table insert, modelling the dict assignment
`self.stable_files[item_path] = {...}`. -/
def stableSet : List ((String × String) × Nat) → (String × String) → Nat →
    List ((String × String) × Nat)
  | [], k, v => [(k, v)]
  | (k0, v0) :: rest, k, v =>
    if k0 = k then (k0, v) :: rest else (k0, v0) :: stableSet rest k v

/-- `FileMonitor._scan_folder` (lines 104-167) for an existing folder:
filter the listing to non-directory entries whose lowercased extension
is configured; when `initial` is false, every item not in the folder's
seen set is inserted into the stabilization table with its current
size; finally the folder's seen set is replaced by the current
listing.  When `initial` is true nothing enters the table. -/
def scan_folder (listing : String → List DirEntry) (extensions : List String)
    (initial : Bool) (folder : String) (s : MonState) : MonState :=
  let entries := (listing folder).filter
    (fun e => e.isDir = false ∧ extensions.contains e.ext)
  let current := entries.map (fun e => e.ename)
  let seen0 := (seenGet s.seen_files folder).getD []
  let stable' :=
    if initial then s.stable_files
    else
      entries.foldl
        (fun acc e =>
          if seen0.contains e.ename then acc
          else stableSet acc (folder, e.ename) e.size)
        s.stable_files
  { s with
    stable_files := stable'
    seen_files := seenSet s.seen_files folder current }

/-- `FileMonitor.start` initialization of one folder (lines 66-68):
empty the seen set and run an initial scan (`initial=True`). -/
def start_folder (listing : String → List DirEntry) (extensions : List String)
    (folder : String) (s : MonState) : MonState :=
  scan_folder listing extensions true folder
    { s with
      source_folders := s.source_folders ++ [folder]
      seen_files := seenSet s.seen_files folder [] }

/-- `FileMonitor.add_source_folder` (lines 234-239): when the folder is
not yet tracked, append it and give it an **empty** seen set.  No scan
of any kind is performed here. -/
def add_source_folder (folder : String) (s : MonState) : MonState :=
  if s.source_folders.contains folder then s
  else
    { s with
      source_folders := s.source_folders ++ [folder]
      seen_files := seenSet s.seen_files folder [] }

/-- One pass of `FileMonitor._monitor_loop` (lines 87-93): scan every
folder with `initial=False`. -/
def monitor_pass (listing : String → List DirEntry) (extensions : List String)
    (s : MonState) : MonState :=
  s.source_folders.foldl
    (fun acc f => scan_folder listing extensions false f acc) s

/-- Value of the local `last_checkpoint` right after a chunk-loop pass
described by `e`. -/
def CpEntry.after (e : CpEntry) : Nat := if e.fired then e.cp else e.prev

/-- Invariant attached to every chunk-loop pass: the callback fired
exactly when the freshly floored percentage strictly exceeds the
previous `last_checkpoint`; the computed checkpoint is the floored
percentage; and the post-pass `last_checkpoint` is a multiple of 10
bounded by the floored current percentage, with `copied` never past
`total`. -/
def entryInv (total : Nat) (e : CpEntry) : Prop :=
  (e.fired = true ↔ e.prev < e.cp) ∧
  e.cp = natCheckpoint e.copied total ∧
  e.after % 10 = 0 ∧
  e.after ≤ natCheckpoint e.copied total ∧
  e.copied ≤ total

/-- Concrete job fixture used by the executable scenarios below. -/
def jobA : FileJob :=
  { name := "a.mp4", source_path := .srcFile "a.mp4"
    dest_path := .dstFile "a" ".mp4", size_bytes := 5 }

/-- Concrete directory content fixture: folder `"F"` already holds one
matching video file at the moment it is added to the detector. -/
def listingF : String → List DirEntry := fun f =>
  if f = "F" then [{ ename := "a.mp4", isDir := false, ext := ".mp4", size := 100 }]
  else []

/-- Detector state before any folder is configured. -/
def monEmpty : MonState :=
  { source_folders := [], seen_files := [], stable_files := [] }

/-- The integer checkpoint formula agrees with the source's
floating-point expression `int(((copied / total) * 100) // 10) * 10`,
read over exact rationals. -/
theorem natCheckpoint_eq_floor (c t : Nat) :
    currentCheckpoint ((c : ℚ) / (t : ℚ) * 100) = (natCheckpoint c t : Int) := by
  have hfl : ∀ q : ℚ, q.floor = ⌊q⌋ := fun q => by
    rw [Rat.floor_def', Rat.floor_def]
  rcases Nat.eq_zero_or_pos t with ht | ht
  · subst ht
    simp [currentCheckpoint, natCheckpoint, hfl]
  · have hne : (t : ℚ) ≠ 0 := Nat.cast_ne_zero.mpr (by omega)
    unfold currentCheckpoint natCheckpoint
    have h1 : ((c : ℚ) / (t : ℚ) * 100) / 10 = ((10 * c : ℕ) : ℚ) / ((t : ℕ) : ℚ) := by
      push_cast
      field_simp
      ring
    rw [h1, hfl, Rat.floor_natCast_div_natCast]
    rw [← Int.natCast_div]
    push_cast
    ring

/-- `natCheckpoint` is monotone in the copied amount. -/
theorem natCheckpoint_mono {c c' : Nat} (t : Nat) (h : c ≤ c') :
    natCheckpoint c t ≤ natCheckpoint c' t :=
  Nat.mul_le_mul_right 10
    (Nat.div_le_div_right (Nat.mul_le_mul_left 10 h))

/-- `natCheckpoint` never exceeds 100 while `copied ≤ total`. -/
theorem natCheckpoint_le_100 {c t : Nat} (h : c ≤ t) :
    natCheckpoint c t ≤ 100 := by
  rcases Nat.eq_zero_or_pos t with ht | ht
  · subst ht
    interval_cases c
    decide
  · have h1 : 10 * c / t ≤ 10 * t / t :=
      Nat.div_le_div_right (Nat.mul_le_mul_left 10 h)
    have h2 : 10 * t / t = 10 := Nat.mul_div_cancel 10 ht
    calc natCheckpoint c t = 10 * c / t * 10 := rfl
      _ ≤ 10 * 10 := by omega
      _ = 100 := rfl

/-- `natCheckpoint` is always a multiple of 10. -/
theorem natCheckpoint_mod (c t : Nat) : natCheckpoint c t % 10 = 0 :=
  Nat.mul_mod_left _ 10

/-- The chunk loop preserves the checkpoint invariant: starting from a
state whose `last_checkpoint` is a multiple of 10 bounded by the
floored current percentage, every recorded pass satisfies `entryInv`
and the final state satisfies the same bounds. -/
theorem chunkLoop_inv (src : List Nat) (cs total : Nat) (fuel : Nat)
    (s : LoopState)
    (hsp : s.srcPos = s.copied) (hlen : src.length = total)
    (hct : s.copied ≤ total)
    (hm : s.lastCp % 10 = 0)
    (hle : s.lastCp ≤ natCheckpoint s.copied total)
    (hhist : ∀ e ∈ s.hist, entryInv total e) :
    (∀ e ∈ (chunkLoop src cs total true fuel s).hist, entryInv total e) ∧
    (chunkLoop src cs total true fuel s).lastCp % 10 = 0 ∧
    (chunkLoop src cs total true fuel s).lastCp ≤
      natCheckpoint (chunkLoop src cs total true fuel s).copied total ∧
    (chunkLoop src cs total true fuel s).copied ≤ total := by
  induction fuel generalizing s with
  | zero =>
    exact ⟨hhist, hm, hle, hct⟩
  | succ fuel ih =>
    rw [chunkLoop]
    by_cases hlt : s.copied < total
    · simp only [hlt, if_true]
      set chunk := (src.drop s.srcPos).take cs with hchunk
      by_cases hemp : chunk.isEmpty
      · simp only [hemp, if_true]
        exact ⟨hhist, hm, hle, hct⟩
      · simp only [hemp, if_false]
        have hcklen : chunk.length ≤ total - s.copied := by
          have h1 : chunk.length = min cs (src.drop s.srcPos).length :=
            List.length_take _ _
          have h2 : (src.drop s.srcPos).length = src.length - s.srcPos :=
            List.length_drop _ _
          omega
        have hct' : s.copied + chunk.length ≤ total := by omega
        apply ih
        · simp
          omega
        · exact hct'
        · by_cases hfire : s.lastCp < natCheckpoint (s.copied + chunk.length) total
          · simp [hfire, natCheckpoint_mod]
          · simp [hfire, hm]
        · by_cases hfire : s.lastCp < natCheckpoint (s.copied + chunk.length) total
          · simp [hfire]
          · simp only [Bool.true_and, decide_eq_true_eq, hfire, if_false]
            calc s.lastCp ≤ natCheckpoint s.copied total := hle
              _ ≤ natCheckpoint (s.copied + chunk.length) total :=
                  natCheckpoint_mono total (by omega)
        · intro e he
          simp only [List.mem_append, List.mem_singleton] at he
          rcases he with he | he
          · exact hhist e he
          · subst he
            constructor
            · simp
            refine ⟨rfl, ?_, ?_, hct'⟩
            · by_cases hfire : s.lastCp < natCheckpoint (s.copied + chunk.length) total
              · simp [CpEntry.after, hfire, natCheckpoint_mod]
              · simp [CpEntry.after, hfire, hm]
            · by_cases hfire : s.lastCp < natCheckpoint (s.copied + chunk.length) total
              · simp [CpEntry.after, hfire]
              · simp only [CpEntry.after, Bool.true_and, decide_eq_true_eq, hfire, if_false]
                calc s.lastCp ≤ natCheckpoint s.copied total := hle
                  _ ≤ natCheckpoint (s.copied + chunk.length) total :=
                      natCheckpoint_mono total (by omega)
    · simp only [hlt, if_false]
      exact ⟨hhist, hm, hle, hct⟩

/-- C7: during and after the chunk loop of `copy_with_progress` (run
with a checkpoint callback), every pass keeps `last_checkpoint` a
multiple of 10, at most 100, and bounded by the floored current
percentage `int(percent // 10) * 10`; the checkpoint callback fires on
a pass exactly when that floored value strictly exceeds the previous
`last_checkpoint`.  The hypotheses state that the source has the size
recorded in the job (which `safe_copy` establishes at pre-flight) and
that the resumed `copied_bytes`/`last_checkpoint` satisfy the same
invariant, as any state written by a previous run does. -/
theorem checkpoint_invariant_holds
    (src : List Nat) (cs : Nat) (fs : FSys) (job : FileJob) (now : Int)
    (hsrc : fsLookup fs job.source_path = some src)
    (hlen : src.length = job.size_bytes)
    (hc : job.copied_bytes ≤ job.size_bytes)
    (hm : job.last_checkpoint % 10 = 0)
    (hle : job.last_checkpoint ≤ natCheckpoint job.copied_bytes job.size_bytes) :
    (∀ e ∈ (copy_with_progress now cs true fs job).hist,
       (e.fired = true ↔ e.prev < e.cp) ∧
       (e.cp : Int) = currentCheckpoint ((e.copied : ℚ) / (job.size_bytes : ℚ) * 100) ∧
       e.after % 10 = 0 ∧ e.after ≤ 100 ∧
       e.after ≤ natCheckpoint e.copied job.size_bytes) ∧
    (copy_with_progress now cs true fs job).job.last_checkpoint % 10 = 0 ∧
    (copy_with_progress now cs true fs job).job.last_checkpoint ≤ 100 := by
  have hmain := chunkLoop_inv src cs job.size_bytes (job.size_bytes + 1)
    { dst := [], dstPos := job.copied_bytes, srcPos := job.copied_bytes
      copied := job.copied_bytes, lastCp := job.last_checkpoint, hist := [] }
    rfl hlen hc hm hle (by intro e he; simp at he)
  obtain ⟨hentries, hm', hle', hct'⟩ := hmain
  simp only [copy_with_progress, hsrc]
  refine ⟨?_, hm', ?_⟩
  · intro e he
    obtain ⟨h1, h2, h3, h4, h5⟩ := hentries e he
    refine ⟨h1, ?_, h3, ?_, h4⟩
    · rw [natCheckpoint_eq_floor, h2]
    · calc e.after ≤ natCheckpoint e.copied job.size_bytes := h4
        _ ≤ 100 := natCheckpoint_le_100 h5
  · calc (chunkLoop src cs job.size_bytes true (job.size_bytes + 1) _).lastCp
        ≤ natCheckpoint _ job.size_bytes := hle'
      _ ≤ 100 := natCheckpoint_le_100 hct'

/-- C7 witness: a 10-byte file copied in 3-byte chunks from a fresh
job; the hypotheses of `checkpoint_invariant_holds` evaluate to true
and the theorem applies. -/
theorem checkpoint_invariant_holds_witness :
    (fsLookup [(.srcFile "w.mp4", [0, 1, 2, 3, 4, 5, 6, 7, 8, 9])] (FPath.srcFile "w.mp4") =
      some [0, 1, 2, 3, 4, 5, 6, 7, 8, 9]) ∧
    ((∀ e ∈ (copy_with_progress 3 3 true [(.srcFile "w.mp4", [0, 1, 2, 3, 4, 5, 6, 7, 8, 9])]
        { name := "w.mp4", source_path := .srcFile "w.mp4"
          dest_path := .dstFile "w" ".mp4", size_bytes := 10 }).hist,
       (e.fired = true ↔ e.prev < e.cp) ∧
       (e.cp : Int) = currentCheckpoint ((e.copied : ℚ) / ((10 : Nat) : ℚ) * 100) ∧
       e.after % 10 = 0 ∧ e.after ≤ 100 ∧
       e.after ≤ natCheckpoint e.copied 10) ∧
    (copy_with_progress 3 3 true [(.srcFile "w.mp4", [0, 1, 2, 3, 4, 5, 6, 7, 8, 9])]
        { name := "w.mp4", source_path := .srcFile "w.mp4"
          dest_path := .dstFile "w" ".mp4", size_bytes := 10 }).job.last_checkpoint % 10 = 0 ∧
    (copy_with_progress 3 3 true [(.srcFile "w.mp4", [0, 1, 2, 3, 4, 5, 6, 7, 8, 9])]
        { name := "w.mp4", source_path := .srcFile "w.mp4"
          dest_path := .dstFile "w" ".mp4", size_bytes := 10 }).job.last_checkpoint ≤ 100) :=
  ⟨by decide,
   checkpoint_invariant_holds [0, 1, 2, 3, 4, 5, 6, 7, 8, 9] 3
     [(.srcFile "w.mp4", [0, 1, 2, 3, 4, 5, 6, 7, 8, 9])]
     { name := "w.mp4", source_path := .srcFile "w.mp4"
       dest_path := .dstFile "w" ".mp4", size_bytes := 10 } 3
     (by decide) (by decide) (by decide) (by decide) (by decide)⟩

/-- C1: the claim states that a resumed copy preserves the first
`copied_bytes` bytes already at the destination.  The code instead
reopens the destination with `open(job.dest_path, 'wb')`
(`file_handler.py` line 91), truncating the partial file before
seeking, so the preserved prefix is replaced by zeros: resuming a
2-byte copy of `[1, 2]` from `copied_bytes = 1` over the partial
destination `[1]` yields `[0, 2]`, not the `[1, 2]` an uninterrupted
copy produces. -/
theorem resume_truncate_corrupts_destination :
    (copy_with_progress 7 1 true
        [(.srcFile "b.mp4", [1, 2]), (.dstFile "b" ".mp4", [1])]
        { name := "b.mp4", source_path := .srcFile "b.mp4"
          dest_path := .dstFile "b" ".mp4", size_bytes := 2
          copied_bytes := 1, last_checkpoint := 50 }).ok = true ∧
    fsLookup (copy_with_progress 7 1 true
        [(.srcFile "b.mp4", [1, 2]), (.dstFile "b" ".mp4", [1])]
        { name := "b.mp4", source_path := .srcFile "b.mp4"
          dest_path := .dstFile "b" ".mp4", size_bytes := 2
          copied_bytes := 1, last_checkpoint := 50 }).fs (.dstFile "b" ".mp4") =
      some [0, 2] ∧
    fsLookup (copy_with_progress 7 1 true [(.srcFile "b.mp4", [1, 2])]
        { name := "b.mp4", source_path := .srcFile "b.mp4"
          dest_path := .dstFile "b" ".mp4", size_bytes := 2 }).fs (.dstFile "b" ".mp4") =
      some [1, 2] ∧
    some [0, 2] ≠ some [1, 2] := by decide

/-- C2: the claim states every state-store write goes through a
temporary sibling file renamed over the target.  `StateManager.save`
(`state_manager.py` lines 100-108) opens the target path itself for
writing and dumps the JSON document into it: its effect trace contains
a direct write to the target and no rename at all. -/
theorem save_writes_target_directly :
    FsEffect.openWrite "pipeline_state.json" ∈ saveEffects "." "pipeline_state.json" ∧
    (∀ e ∈ saveEffects "." "pipeline_state.json", e.isRename = false) := by decide

/-- C2 amended: `StateManager.save` performs exactly `os.makedirs` on
the parent directory followed by a direct `open(state_path, 'w')` and
`json.dump` into that handle; no temporary sibling file is created and
no rename occurs, so a crash during the write can leave a truncated
document at the target path. -/
theorem save_effect_trace (dir path : String) :
    saveEffects dir path = [.makedirs dir, .openWrite path, .jsonDump path] ∧
    FsEffect.openWrite path ∈ saveEffects dir path ∧
    (∀ e ∈ saveEffects dir path, e.isRename = false) := by
  refine ⟨rfl, by simp [saveEffects], ?_⟩
  intro e he
  simp only [saveEffects, List.mem_cons, List.not_mem_nil, or_false] at he
  rcases he with rfl | rfl | rfl <;> rfl

/-- C4: the claim states the retry path emits a `retrying` event.
`QueueManager.fail_job` notifies `'failed'` on both branches
(`queue_manager.py` line 163): failing a retryable job re-enqueues it
but appends the event `("failed", name)`, and no `retrying` event
exists anywhere in the queue implementation. -/
theorem fail_job_emits_failed_not_retrying :
    (fail_job
        { emptyQ with
          jobs := [("a.mp4",
            { name := "a.mp4", source_path := .srcFile "a.mp4"
              dest_path := .dstFile "a" ".mp4", size_bytes := 5 })]
          active_jobs := ["a.mp4"] }
        { name := "a.mp4", source_path := .srcFile "a.mp4"
          dest_path := .dstFile "a" ".mp4", size_bytes := 5 }
        "boom" true).waiting_jobs = ["a.mp4"] ∧
    (fail_job
        { emptyQ with
          jobs := [("a.mp4",
            { name := "a.mp4", source_path := .srcFile "a.mp4"
              dest_path := .dstFile "a" ".mp4", size_bytes := 5 })]
          active_jobs := ["a.mp4"] }
        { name := "a.mp4", source_path := .srcFile "a.mp4"
          dest_path := .dstFile "a" ".mp4", size_bytes := 5 }
        "boom" true).events = [("failed", "a.mp4")] ∧
    ("retrying", "a.mp4") ∉
      (fail_job
        { emptyQ with
          jobs := [("a.mp4",
            { name := "a.mp4", source_path := .srcFile "a.mp4"
              dest_path := .dstFile "a" ".mp4", size_bytes := 5 })]
          active_jobs := ["a.mp4"] }
        { name := "a.mp4", source_path := .srcFile "a.mp4"
          dest_path := .dstFile "a" ".mp4", size_bytes := 5 }
        "boom" true).events := by decide

/-- C4 amended: `fail_job` increments `retry_count` and, when retry is
requested and the incremented count is below `max_retry`, re-enqueues
the job at the tail with status `waiting`; otherwise it appends the job
to the failed list.  In both branches it removes the job from the
active list and emits a `failed` event (there is no `retrying`
event). -/
theorem fail_job_retry_behavior (s : QState) (job : FileJob) (err : String)
    (retry : Bool) :
    (fail_job s job err retry).events = s.events ++ [("failed", job.name)] ∧
    (fail_job s job err retry).active_jobs = s.active_jobs.erase job.name ∧
    (if retry ∧ job.retry_count + 1 < job.max_retry then
       (fail_job s job err retry).waiting_jobs = s.waiting_jobs ++ [job.name] ∧
       (fail_job s job err retry).fifo = s.fifo ++
         [{ job with retry_count := job.retry_count + 1
                     last_error := some err, status := "waiting" }] ∧
       (fail_job s job err retry).failed_jobs = s.failed_jobs
     else
       (fail_job s job err retry).failed_jobs = s.failed_jobs ++ [job.name] ∧
       (fail_job s job err retry).waiting_jobs = s.waiting_jobs ∧
       (fail_job s job err retry).fifo = s.fifo) := by
  by_cases h : (retry = true) ∧ job.retry_count + 1 < job.max_retry
  · obtain ⟨h1, h2⟩ := h
    subst h1
    simp [fail_job, h2]
  · simp [fail_job, h]

/-- C5: the claim lists the between-attempt delays as
`1, 2, 4, 8, 16` seconds.  With 5 attempts there are only four sleeps,
`1, 2, 4, 8` (the delay `base_delay * 2 ** attempt` is computed only
for `attempt < max_retries - 1`, so `2 ** 4 = 16` is never reached);
the final error string is as claimed. -/
theorem perm_retry_sleeps_concrete :
    retryLoop 5 1 0 (List.replicate 5 .permDenied) =
      { sleeps := [1, 2, 4, 8], ok := false
        err := some "Permission denied after 5 attempts" } ∧
    (retryLoop 5 1 0 (List.replicate 5 .permDenied)).sleeps ≠ [1, 2, 4, 8, 16] ∧
    16 ∉ (retryLoop 5 1 0 (List.replicate 5 .permDenied)).sleeps := by decide

/-- C5 amended: when every one of the 5 attempts raises
`PermissionError`, the copy routine sleeps `1, 2, 4, 8` seconds between
consecutive attempts (the 16-second delay of the claimed schedule is
never used), returns failure, and sets
`last_error = "Permission denied after 5 attempts"`. -/
theorem perm_retry_backoff (os : List AttemptOutcome)
    (hlen : os.length = 5) (hall : ∀ o ∈ os, o = .permDenied) :
    retryLoop 5 1 0 os =
      { sleeps := [1, 2, 4, 8], ok := false
        err := some "Permission denied after 5 attempts" } := by
  match os, hlen with
  | [a, b, c, d, e], _ =>
    have ha := hall a (by simp)
    have hb := hall b (by simp)
    have hc := hall c (by simp)
    have hd := hall d (by simp)
    have he := hall e (by simp)
    subst ha hb hc hd he
    rfl

/-- C5 witness: the all-denied outcome sequence satisfies the
hypotheses of `perm_retry_backoff` and the theorem applies. -/
theorem perm_retry_backoff_witness :
    (List.replicate 5 AttemptOutcome.permDenied).length = 5 ∧
    retryLoop 5 1 0 (List.replicate 5 .permDenied) =
      { sleeps := [1, 2, 4, 8], ok := false
        err := some "Permission denied after 5 attempts" } :=
  ⟨by decide,
   perm_retry_backoff (List.replicate 5 .permDenied) (by decide) (by decide)⟩

/-- C8: the claim states each job name stays in exactly one of the
four containers even when a tracked name is added again.  The
duplicate-add guard of `QueueManager.add_job` is commented out
(`queue_manager.py` lines 47-49), so after `add a; next; complete a;
add a` — the same filename re-appearing after a completed transfer —
the name sits in both the waiting list and the completed set. -/
theorem duplicate_add_breaks_partition :
    (add_job (complete_job (get_next_job (add_job emptyQ jobA)).2
        ((get_next_job (add_job emptyQ jobA)).1.getD jobA) true)
      jobA).waiting_jobs.contains "a.mp4" = true ∧
    (add_job (complete_job (get_next_job (add_job emptyQ jobA)).2
        ((get_next_job (add_job emptyQ jobA)).1.getD jobA) true)
      jobA).completed_jobs.contains "a.mp4" = true ∧
    containerCount
      (add_job (complete_job (get_next_job (add_job emptyQ jobA)).2
          ((get_next_job (add_job emptyQ jobA)).1.getD jobA) true)
        jobA) "a.mp4" = 2 := by decide

/-- Insertion puts the key into the stabilization table. -/
theorem stableSet_mem_key (tbl : List ((String × String) × Nat))
    (k : String × String) (v : Nat) :
    k ∈ (stableSet tbl k v).map Prod.fst := by
  induction tbl with
  | nil => simp [stableSet]
  | cons hd tl ih =>
    obtain ⟨k0, v0⟩ := hd
    by_cases hk : k0 = k
    · simp [stableSet, hk]
    · simp only [stableSet, hk, if_false, List.map_cons, List.mem_cons]
      exact Or.inr ih

/-- Insertion never removes a key from the stabilization table. -/
theorem stableSet_mem_key_mono (tbl : List ((String × String) × Nat))
    (k : String × String) (v : Nat) (q : String × String)
    (h : q ∈ tbl.map Prod.fst) :
    q ∈ (stableSet tbl k v).map Prod.fst := by
  induction tbl with
  | nil => simp [stableSet] at h ⊢
  | cons hd tl ih =>
    obtain ⟨k0, v0⟩ := hd
    simp only [List.map_cons, List.mem_cons] at h
    by_cases hk : k0 = k
    · subst hk
      simp only [stableSet, if_true, List.map_cons, List.mem_cons]
      exact h
    · simp only [stableSet, hk, if_false, List.map_cons, List.mem_cons]
      rcases h with h | h
      · exact Or.inl h
      · exact Or.inr (ih h)

/-- Folding insertions over a list of entries never removes a key. -/
theorem foldl_stable_preserves (folder : String) (entries : List DirEntry)
    (acc : List ((String × String) × Nat)) (q : String × String)
    (h : q ∈ acc.map Prod.fst) :
    q ∈ ((entries.foldl (fun a e => stableSet a (folder, e.ename) e.size) acc).map
      Prod.fst) := by
  induction entries generalizing acc with
  | nil => exact h
  | cons hd tl ih =>
    exact ih _ (stableSet_mem_key_mono _ _ _ _ h)

/-- Every listed entry ends up as a key of the stabilization table
after the fold. -/
theorem foldl_stable_mem (folder : String) (entries : List DirEntry)
    (acc : List ((String × String) × Nat)) (e : DirEntry) (he : e ∈ entries) :
    (folder, e.ename) ∈
      ((entries.foldl (fun a x => stableSet a (folder, x.ename) x.size) acc).map
        Prod.fst) := by
  induction entries generalizing acc with
  | nil => simp at he
  | cons hd tl ih =>
    rcases List.mem_cons.mp he with rfl | he'
    · exact foldl_stable_preserves folder tl _ _ (stableSet_mem_key _ _ _)
    · exact ih _ he'

/-- Updating a folder's seen set makes that exact set readable back. -/
theorem seenGet_seenSet_self (m : List (String × List String))
    (f : String) (ys : List String) :
    seenGet (seenSet m f ys) f = some ys := by
  induction m with
  | nil => simp [seenSet, seenGet]
  | cons hd tl ih =>
    obtain ⟨g, xs⟩ := hd
    by_cases hg : g = f
    · simp [seenSet, seenGet, hg]
    · simp [seenSet, seenGet, hg, ih]

/-- C9: the claim states a directory added at runtime gets an initial
scan that records the already-present files into the seen set without
emitting them.  `FileMonitor.add_source_folder` only installs an empty
seen set and performs no scan; on the next polling pass the
already-present `a.mp4` is treated as a brand-new file and enters the
stabilization table (hence the job pipeline), unlike at process start
where `start` scans with `initial=True` and suppresses emission. -/
theorem runtime_add_no_initial_scan :
    seenGet (add_source_folder "F" monEmpty).seen_files "F" = some [] ∧
    (add_source_folder "F" monEmpty).stable_files = [] ∧
    (monitor_pass listingF [".mp4"] (add_source_folder "F" monEmpty)).stable_files =
      [(("F", "a.mp4"), 100)] ∧
    seenGet (start_folder listingF [".mp4"] "F" monEmpty).seen_files "F" =
      some ["a.mp4"] ∧
    (start_folder listingF [".mp4"] "F" monEmpty).stable_files = [] := by decide

/-- C9 amended: a folder added at runtime is appended with an empty
seen set and no initial scan is performed; consequently every matching
file already present in the folder is inserted into the stabilization
table by the next polling pass, entering the pipeline. -/
theorem runtime_add_behavior (listing : String → List DirEntry)
    (exts : List String) (folder : String) (s : MonState)
    (hnew : s.source_folders.contains folder = false) :
    seenGet (add_source_folder folder s).seen_files folder = some [] ∧
    (add_source_folder folder s).stable_files = s.stable_files ∧
    (add_source_folder folder s).source_folders = s.source_folders ++ [folder] ∧
    ((listing folder).filter (fun e => e.isDir = false ∧ exts.contains e.ext)).all
      (fun e =>
        ((scan_folder listing exts false folder
            (add_source_folder folder s)).stable_files.map Prod.fst).contains
          (folder, e.ename)) = true := by
  have hadd : add_source_folder folder s =
      { s with
        source_folders := s.source_folders ++ [folder]
        seen_files := seenSet s.seen_files folder [] } := by
    unfold add_source_folder
    rw [hnew]
    simp
  refine ⟨?_, ?_, ?_, ?_⟩
  · rw [hadd]
    exact seenGet_seenSet_self _ _ _
  · rw [hadd]
  · rw [hadd]
  · rw [List.all_eq_true]
    intro e he
    rw [List.contains_iff_exists_mem_beq]
    have hseen : (seenGet (add_source_folder folder s).seen_files folder).getD [] = [] := by
      rw [hadd, seenGet_seenSet_self]
      rfl
    have hmem : (folder, e.ename) ∈
        ((scan_folder listing exts false folder
          (add_source_folder folder s)).stable_files.map Prod.fst) := by
      simp only [scan_folder, hseen, Bool.false_eq_true, if_false,
        List.contains_nil]
      exact foldl_stable_mem folder _ _ e he
    exact ⟨(folder, e.ename), hmem, by simp⟩

/-- C9 witness: the concrete fixture (empty detector, folder `"F"`
holding `a.mp4`) satisfies the hypothesis of `runtime_add_behavior`
and the theorem applies. -/
theorem runtime_add_behavior_witness :
    monEmpty.source_folders.contains "F" = false ∧
    (seenGet (add_source_folder "F" monEmpty).seen_files "F" = some [] ∧
     (add_source_folder "F" monEmpty).stable_files = monEmpty.stable_files ∧
     (add_source_folder "F" monEmpty).source_folders =
       monEmpty.source_folders ++ ["F"] ∧
     ((listingF "F").filter (fun e => e.isDir = false ∧
         List.contains [".mp4"] e.ext)).all
       (fun e =>
         ((scan_folder listingF [".mp4"] false "F"
             (add_source_folder "F" monEmpty)).stable_files.map Prod.fst).contains
           ("F", e.ename)) = true) :=
  ⟨by decide, runtime_add_behavior listingF [".mp4"] "F" monEmpty (by decide)⟩

/-- Serializing any job whose `end_time` holds a raw `time.time()`
float raises inside `to_dict`. -/
theorem to_dict_float_end_time (j : FileJob) (t : Int)
    (h : j.end_time = some (.pyfloat t)) :
    ∃ msg, to_dict j = .error msg := by
  unfold to_dict
  cases hdt : optIso j.detected_time with
  | error m => exact ⟨m, rfl⟩
  | ok dv =>
    cases hst : optIso j.start_time with
    | error m => exact ⟨m, rfl⟩
    | ok sv =>
      rw [h]
      exact ⟨"AttributeError: float object has no attribute isoformat", rfl⟩

/-- C10: `copy_with_progress` stamps `end_time = time.time()` — a raw
float — on success (`file_handler.py` line 143); `FileJob.to_dict`
then raises on `end_time.isoformat()`, so the
`StateManager.update_job` call made after a successful copy always
lands in its `except` branch: it returns `False` and leaves the store
untouched, never persisting the completed job. -/
theorem completed_job_never_persisted
    (now : Int) (cs : Nat) (cb : Bool) (fs : FSys) (job : FileJob)
    (st : StoreState)
    (hok : (copy_with_progress now cs cb fs job).ok = true) :
    (copy_with_progress now cs cb fs job).job.end_time = some (.pyfloat now) ∧
    (∃ msg, to_dict (copy_with_progress now cs cb fs job).job = .error msg) ∧
    update_job st (copy_with_progress now cs cb fs job).job = (st, false) := by
  cases hsrc : fsLookup fs job.source_path with
  | none =>
    exfalso
    simp [copy_with_progress, hsrc] at hok
  | some src =>
    have hend : (copy_with_progress now cs cb fs job).job.end_time =
        some (.pyfloat now) := by
      simp [copy_with_progress, hsrc]
    obtain ⟨msg, hmsg⟩ := to_dict_float_end_time _ now hend
    refine ⟨hend, ⟨msg, hmsg⟩, ?_⟩
    simp [update_job, hmsg]

/-- Writing one path never disturbs the content stored at another. -/
theorem fsLookup_fsSet_ne (fs : FSys) (p q : FPath) (c : List Nat)
    (h : p ≠ q) : fsLookup (fsSet fs p c) q = fsLookup fs q := by
  induction fs with
  | nil => simp [fsSet, fsLookup, h]
  | cons hd tl ih =>
    obtain ⟨r, bs⟩ := hd
    by_cases hr : r = p
    · subst hr
      simp [fsSet, fsLookup, h]
    · simp [fsSet, fsLookup, hr, ih]

/-- The single-attempt copy succeeds exactly when the source path can
be opened. -/
theorem copy_ok_iff (now : Int) (cs : Nat) (cb : Bool) (fs : FSys)
    (job : FileJob) :
    (copy_with_progress now cs cb fs job).ok =
      (fsLookup fs job.source_path).isSome := by
  cases h : fsLookup fs job.source_path <;> simp [copy_with_progress, h]

/-- The copy never changes the job's size or paths. -/
theorem copy_job_fields (now : Int) (cs : Nat) (cb : Bool) (fs : FSys)
    (job : FileJob) :
    (copy_with_progress now cs cb fs job).job.size_bytes = job.size_bytes ∧
    (copy_with_progress now cs cb fs job).job.dest_path = job.dest_path ∧
    (copy_with_progress now cs cb fs job).job.source_path = job.source_path := by
  cases h : fsLookup fs job.source_path <;> simp [copy_with_progress, h]

/-- The copy writes only at the job's destination path. -/
theorem copy_untouched (now : Int) (cs : Nat) (cb : Bool) (fs : FSys)
    (job : FileJob) (q : FPath) (hq : q ≠ job.dest_path) :
    fsLookup (copy_with_progress now cs cb fs job).fs q = fsLookup fs q := by
  cases h : fsLookup fs job.source_path with
  | none => simp [copy_with_progress, h]
  | some src =>
    simp only [copy_with_progress, h]
    rw [fsLookup_fsSet_ne _ _ _ _ (Ne.symm hq), fsLookup_fsSet_ne _ _ _ _ (Ne.symm hq)]

/-- A result that survives post-verification is returned unchanged and
its destination holds exactly `size_bytes` bytes. -/
theorem post_verify_ok (r : CopyResult) (h : (post_verify r).ok = true) :
    post_verify r = r ∧
    ∃ bs, fsLookup r.fs r.job.dest_path = some bs ∧
      bs.length = r.job.size_bytes := by
  by_cases h1 : r.ok = false
  · unfold post_verify at h
    rw [if_pos h1, h1] at h
    exact absurd h (by simp)
  · cases hlk : fsLookup r.fs r.job.dest_path with
    | none =>
      exfalso
      unfold post_verify at h
      rw [if_neg h1, hlk] at h
      simp at h
    | some bs =>
      by_cases hl : bs.length ≠ r.job.size_bytes
      · exfalso
        unfold post_verify at h
        rw [if_neg h1, hlk] at h
        simp [hl] at h
      · have heq : post_verify r = r := by
          unfold post_verify
          rw [if_neg h1, hlk]
          simp [hl]
        push_neg at hl
        exact ⟨heq, bs, rfl, hl⟩

/-- Post-verification never changes the filesystem or the job's
destination path and size. -/
theorem post_verify_preserves (r : CopyResult) :
    (post_verify r).fs = r.fs ∧
    (post_verify r).job.dest_path = r.job.dest_path ∧
    (post_verify r).job.size_bytes = r.job.size_bytes := by
  unfold post_verify
  by_cases h1 : r.ok = false
  · simp [h1]
  · rw [if_neg h1]
    cases hlk : fsLookup r.fs r.job.dest_path with
    | none => simp
    | some bs =>
      by_cases hl : bs.length ≠ r.job.size_bytes
      · simp [hl]
      · simp [hl]

/-- Any numbered destination present in the snapshot is bounded by
`maxNumbered`. -/
theorem exists_le_maxNumbered (fs : FSys) (b e : String) (n : Nat)
    (h : fsExists fs (.dstNumbered b e n) = true) :
    n ≤ maxNumbered fs b e := by
  induction fs with
  | nil => simp [fsExists, fsLookup] at h
  | cons hd tl ih =>
    obtain ⟨q, bs⟩ := hd
    by_cases hq : q = FPath.dstNumbered b e n
    · subst hq
      have : maxNumbered ((FPath.dstNumbered b e n, bs) :: tl) b e =
          max n (maxNumbered tl b e) := by
        simp [maxNumbered]
      omega
    · have h' : fsExists tl (.dstNumbered b e n) = true := by
        simpa [fsExists, fsLookup, hq] using h
      have hih := ih h'
      have hmono : maxNumbered tl b e ≤ maxNumbered ((q, bs) :: tl) b e := by
        cases q with
        | dstNumbered b0 x n0 =>
          by_cases hbx : b0 = b ∧ x = e
          · simp only [maxNumbered, List.foldr_cons]
            rw [if_pos hbx]
            omega
          · simp only [maxNumbered, List.foldr_cons]
            rw [if_neg hbx]
        | srcFile nm => simp [maxNumbered]
        | dstFile b0 x => simp [maxNumbered]
      omega

/-- The numbered candidate just above `maxNumbered` is always free. -/
theorem free_above_maxNumbered (fs : FSys) (b e : String) :
    fsExists fs (.dstNumbered b e (maxNumbered fs b e + 1)) = false := by
  cases hx : fsExists fs (.dstNumbered b e (maxNumbered fs b e + 1)) with
  | false => rfl
  | true =>
    have := exists_le_maxNumbered fs b e _ hx
    omega

/-- What a successful counter search returns: a free candidate, at
least the starting counter, with every smaller candidate from the
start occupied. -/
theorem findCounter_some_spec (fs : FSys) (b e : String) (fuel : Nat) :
    ∀ c n, findCounter fs b e fuel c = some n →
      fsExists fs (.dstNumbered b e n) = false ∧ c ≤ n ∧
      ∀ m, c ≤ m → m < n → fsExists fs (.dstNumbered b e m) = true := by
  induction fuel with
  | zero =>
    intro c n h
    simp [findCounter] at h
  | succ fuel ih =>
    intro c n h
    unfold findCounter at h
    by_cases hfree : fsExists fs (.dstNumbered b e c) = false
    · rw [if_pos hfree] at h
      obtain rfl : c = n := Option.some.inj h
      exact ⟨hfree, Nat.le_refl _, fun m hm1 hm2 => absurd hm2 (by omega)⟩
    · rw [if_neg hfree] at h
      obtain ⟨h1, h2, h3⟩ := ih (c + 1) n h
      refine ⟨h1, by omega, ?_⟩
      intro m hm1 hm2
      rcases Nat.eq_or_lt_of_le hm1 with heq | hlt
      · rw [← heq]
        cases hx : fsExists fs (.dstNumbered b e c) with
        | true => rfl
        | false => exact absurd hx hfree
      · exact h3 m (by omega) hm2

/-- The counter search succeeds whenever a free candidate lies within
the fuel window. -/
theorem findCounter_isSome (fs : FSys) (b e : String) (fuel : Nat) :
    ∀ c k, c ≤ k → k < c + fuel →
      fsExists fs (.dstNumbered b e k) = false →
      (findCounter fs b e fuel c).isSome = true := by
  induction fuel with
  | zero =>
    intro c k h1 h2 _
    omega
  | succ fuel ih =>
    intro c k h1 h2 hfree
    unfold findCounter
    by_cases hc : fsExists fs (.dstNumbered b e c) = false
    · rw [if_pos hc]
      rfl
    · rw [if_neg hc]
      have hck : c ≠ k := fun hh => hc (hh ▸ hfree)
      exact ih (c + 1) k (by omega) (by omega) hfree

/-- What `get_unique_dest_path` returns: a path that does not exist,
namely the unmodified one when free, otherwise the numbered variant
with the smallest counter `n ≥ 1` that is free. -/
theorem get_unique_spec (fs : FSys) (b e : String) :
    fsExists fs (get_unique_dest_path fs b e) = false ∧
    (if fsExists fs (.dstFile b e) = false then
       get_unique_dest_path fs b e = .dstFile b e
     else
       ∃ n, get_unique_dest_path fs b e = .dstNumbered b e n ∧ 1 ≤ n ∧
         ∀ m, 1 ≤ m → m < n → fsExists fs (.dstNumbered b e m) = true) := by
  by_cases h : fsExists fs (.dstFile b e) = false
  · constructor
    · unfold get_unique_dest_path
      rw [if_pos h]
      exact h
    · rw [if_pos h]
      unfold get_unique_dest_path
      rw [if_pos h]
  · have hsome : (findCounter fs b e (maxNumbered fs b e + 2) 1).isSome = true :=
      findCounter_isSome fs b e _ 1 (maxNumbered fs b e + 1) (by omega) (by omega)
        (free_above_maxNumbered fs b e)
    cases hf : findCounter fs b e (maxNumbered fs b e + 2) 1 with
    | none =>
      rw [hf] at hsome
      simp at hsome
    | some n =>
      obtain ⟨h1, h2, h3⟩ := findCounter_some_spec fs b e _ 1 n hf
      have hres : get_unique_dest_path fs b e = .dstNumbered b e n := by
        unfold get_unique_dest_path
        rw [if_neg h, hf]
      constructor
      · rw [hres]
        exact h1
      · rw [if_neg h]
        exact ⟨n, hres, h2, h3⟩

/-- C3: `safe_copy` reports success only when the destination file
exists with exactly `size_bytes` bytes, where `size_bytes` is the live
source size adopted at pre-flight; and the worker's failure path never
deletes the source file. -/
theorem safe_copy_success_exact_size
    (now : Int) (cs : Nat) (cb : Bool) (fs : FSys) (job : FileJob)
    (hok : (safe_copy now cs cb fs job).ok = true) :
    (∃ bs, fsLookup (safe_copy now cs cb fs job).fs
        (safe_copy now cs cb fs job).job.dest_path = some bs ∧
        bs.length = (safe_copy now cs cb fs job).job.size_bytes) ∧
    (safe_copy now cs cb fs job).job.size_bytes = fsSize fs job.source_path ∧
    (∀ (j : FileJob) (p : FPath),
       WorkerAction.deleteSource p ∉ processJobActions false j) := by
  have hdel : ∀ (j : FileJob) (p : FPath),
      WorkerAction.deleteSource p ∉ processJobActions false j := by
    intro j p
    simp [processJobActions]
  by_cases hsrc : fsExists fs job.source_path = false
  · exfalso
    unfold safe_copy at hok
    rw [if_pos hsrc] at hok
    simp at hok
  · have hsafe : safe_copy now cs cb fs job =
        post_verify (copy_with_progress now cs cb fs
          { job with
            size_bytes := fsSize fs job.source_path
            dest_path :=
              match job.dest_path with
              | .dstFile b e => get_unique_dest_path fs b e
              | p => p }) := by
      unfold safe_copy
      rw [if_neg hsrc]
    rw [hsafe] at hok ⊢
    obtain ⟨heq, bs, hlk, hlen⟩ := post_verify_ok _ hok
    rw [heq]
    refine ⟨⟨bs, hlk, hlen⟩, ?_, hdel⟩
    rw [(copy_job_fields now cs cb fs _).1]

/-- C3 witness: a concrete 2-byte transfer succeeds; the success
hypothesis of `safe_copy_success_exact_size` evaluates to true and the
theorem applies. -/
theorem safe_copy_success_exact_size_witness :
    (safe_copy 9 1 true [(.srcFile "a.mp4", [3, 4])] jobA).ok = true ∧
    ((∃ bs, fsLookup (safe_copy 9 1 true [(.srcFile "a.mp4", [3, 4])] jobA).fs
        (safe_copy 9 1 true [(.srcFile "a.mp4", [3, 4])] jobA).job.dest_path = some bs ∧
        bs.length = (safe_copy 9 1 true [(.srcFile "a.mp4", [3, 4])] jobA).job.size_bytes) ∧
     (safe_copy 9 1 true [(.srcFile "a.mp4", [3, 4])] jobA).job.size_bytes =
       fsSize [(.srcFile "a.mp4", [3, 4])] jobA.source_path ∧
     (∀ (j : FileJob) (p : FPath),
        WorkerAction.deleteSource p ∉ processJobActions false j)) :=
  ⟨by decide,
   safe_copy_success_exact_size 9 1 true [(.srcFile "a.mp4", [3, 4])] jobA (by decide)⟩

/-- C6: the collision-free destination path computed at pre-flight
refers to no existing file — the unmodified path when free, otherwise
the ` (n)` variant with the smallest `n ≥ 1` that does not collide;
`safe_copy` records the chosen path in the job and, in the rename case,
leaves the pre-existing destination file's content untouched. -/
theorem unique_dest_path_correct
    (fs : FSys) (base ext : String) (now : Int) (cs : Nat) (cb : Bool)
    (job : FileJob)
    (hd : job.dest_path = .dstFile base ext)
    (hs : fsExists fs job.source_path = true) :
    fsExists fs (get_unique_dest_path fs base ext) = false ∧
    (safe_copy now cs cb fs job).job.dest_path = get_unique_dest_path fs base ext ∧
    (if fsExists fs (.dstFile base ext) = false then
       get_unique_dest_path fs base ext = .dstFile base ext
     else
       (∃ n, get_unique_dest_path fs base ext = .dstNumbered base ext n ∧ 1 ≤ n ∧
          ∀ m, 1 ≤ m → m < n → fsExists fs (.dstNumbered base ext m) = true) ∧
       fsLookup (safe_copy now cs cb fs job).fs (.dstFile base ext) =
         fsLookup fs (.dstFile base ext)) := by
  have hnsrc : ¬ fsExists fs job.source_path = false := by
    simp [hs]
  have hsafe0 : safe_copy now cs cb fs job =
      post_verify (copy_with_progress now cs cb fs
        { job with
          size_bytes := fsSize fs job.source_path
          dest_path :=
            match job.dest_path with
            | .dstFile b e => get_unique_dest_path fs b e
            | p => p }) := by
    unfold safe_copy
    rw [if_neg hnsrc]
  have hmatch : (match job.dest_path with
      | .dstFile b e => get_unique_dest_path fs b e
      | p => p) = get_unique_dest_path fs base ext := by
    rw [hd]
  rw [hmatch] at hsafe0
  obtain ⟨hfree, hcase⟩ := get_unique_spec fs base ext
  refine ⟨hfree, ?_, ?_⟩
  · rw [hsafe0, (post_verify_preserves _).2.1, (copy_job_fields now cs cb fs _).2.1]
  · by_cases hex : fsExists fs (.dstFile base ext) = false
    · rw [if_pos hex]
      rw [if_pos hex] at hcase
      exact hcase
    · rw [if_neg hex]
      rw [if_neg hex] at hcase
      obtain ⟨n, hn, hn1, hmin⟩ := hcase
      refine ⟨⟨n, hn, hn1, hmin⟩, ?_⟩
      have hne : FPath.dstFile base ext ≠ get_unique_dest_path fs base ext := by
        rw [hn]
        exact fun hcon => FPath.noConfusion hcon
      rw [hsafe0, (post_verify_preserves _).1]
      exact copy_untouched now cs cb fs _ _ hne

/-- C6 witness: destination folder already holds `a.mp4` and
`a (1).mp4`, so pre-flight picks `a (2).mp4`; the hypotheses of
`unique_dest_path_correct` evaluate to true and the theorem applies. -/
theorem unique_dest_path_correct_witness :
    jobA.dest_path = FPath.dstFile "a" ".mp4" ∧
    fsExists [(.srcFile "a.mp4", [3, 4]), (.dstFile "a" ".mp4", [9]),
      (.dstNumbered "a" ".mp4" 1, [8])] jobA.source_path = true ∧
    (fsExists [(.srcFile "a.mp4", [3, 4]), (.dstFile "a" ".mp4", [9]),
       (.dstNumbered "a" ".mp4" 1, [8])]
       (get_unique_dest_path [(.srcFile "a.mp4", [3, 4]), (.dstFile "a" ".mp4", [9]),
         (.dstNumbered "a" ".mp4" 1, [8])] "a" ".mp4") = false ∧
     (safe_copy 9 1 true [(.srcFile "a.mp4", [3, 4]), (.dstFile "a" ".mp4", [9]),
        (.dstNumbered "a" ".mp4" 1, [8])] jobA).job.dest_path =
       get_unique_dest_path [(.srcFile "a.mp4", [3, 4]), (.dstFile "a" ".mp4", [9]),
         (.dstNumbered "a" ".mp4" 1, [8])] "a" ".mp4" ∧
     (if fsExists [(.srcFile "a.mp4", [3, 4]), (.dstFile "a" ".mp4", [9]),
          (.dstNumbered "a" ".mp4" 1, [8])] (.dstFile "a" ".mp4") = false then
        get_unique_dest_path [(.srcFile "a.mp4", [3, 4]), (.dstFile "a" ".mp4", [9]),
          (.dstNumbered "a" ".mp4" 1, [8])] "a" ".mp4" = .dstFile "a" ".mp4"
      else
        (∃ n, get_unique_dest_path [(.srcFile "a.mp4", [3, 4]), (.dstFile "a" ".mp4", [9]),
           (.dstNumbered "a" ".mp4" 1, [8])] "a" ".mp4" = .dstNumbered "a" ".mp4" n ∧
           1 ≤ n ∧
           ∀ m, 1 ≤ m → m < n →
             fsExists [(.srcFile "a.mp4", [3, 4]), (.dstFile "a" ".mp4", [9]),
               (.dstNumbered "a" ".mp4" 1, [8])] (.dstNumbered "a" ".mp4" m) = true) ∧
        fsLookup (safe_copy 9 1 true [(.srcFile "a.mp4", [3, 4]), (.dstFile "a" ".mp4", [9]),
            (.dstNumbered "a" ".mp4" 1, [8])] jobA).fs (.dstFile "a" ".mp4") =
          fsLookup [(.srcFile "a.mp4", [3, 4]), (.dstFile "a" ".mp4", [9]),
            (.dstNumbered "a" ".mp4" 1, [8])] (.dstFile "a" ".mp4"))) :=
  ⟨rfl, by decide,
   unique_dest_path_correct [(.srcFile "a.mp4", [3, 4]), (.dstFile "a" ".mp4", [9]),
     (.dstNumbered "a" ".mp4" 1, [8])] "a" ".mp4" 9 1 true jobA rfl (by decide)⟩

/-- C10 witness: a concrete successful 2-byte copy; the success
hypothesis of `completed_job_never_persisted` evaluates to true and
the theorem applies with the empty store. -/
theorem completed_job_never_persisted_witness :
    (copy_with_progress 9 1 true [(.srcFile "a.mp4", [3, 4])] jobA).ok = true ∧
    ((copy_with_progress 9 1 true [(.srcFile "a.mp4", [3, 4])] jobA).job.end_time =
       some (.pyfloat 9) ∧
     (∃ msg, to_dict (copy_with_progress 9 1 true
        [(.srcFile "a.mp4", [3, 4])] jobA).job = .error msg) ∧
     update_job { jobs := [], active_downloads := [], queued := [] }
       (copy_with_progress 9 1 true [(.srcFile "a.mp4", [3, 4])] jobA).job =
       ({ jobs := [], active_downloads := [], queued := [] }, false)) :=
  ⟨by decide,
   completed_job_never_persisted 9 1 true [(.srcFile "a.mp4", [3, 4])] jobA
     { jobs := [], active_downloads := [], queued := [] } (by decide)⟩

end WatchFolder
